import Mathlib

/-!
Verification of `tools/diff-preview.go`, a tool that previews uncommitted
git changes by materializing before/after snapshot directories and
launching WinMerge on them.

Shallow embedding conventions:
* Byte strings are modelled as `List Char` (the tool only manipulates text).
* Fatal errors (`fatalf` / `fatalif` / `fataliferr`, which call `os.Exit(1)`)
  are modelled by `Option`: `none` means the run aborted.
* The working tree and the git HEAD content store are modelled as functions
  `List Char → Option (List Char)` from a path to the file content
  (`none` = the file does not exist / the query fails).
* The `before/` and `after/` snapshot directories are modelled as
  association lists from file name to content; `os.Create` truncates, so a
  later write to the same name shadows an earlier one.
-/

set_option autoImplicit false

namespace DiffPreview

/-- The whitespace test used by Go's `strings.TrimSpace` (`unicode.IsSpace`),
restricted to the Latin-1 range that can actually occur here. -/
def isSpace (c : Char) : Bool :=
  c = ' ' || c = '\t' || c = '\n' || c = (Char.ofNat 0x0B) ||
  c = (Char.ofNat 0x0C) || c = '\r' || c = (Char.ofNat 0x85) ||
  c = (Char.ofNat 0xA0)

/-- Go `strings.TrimSpace`, left half: drop leading whitespace. -/
def trimLeft (s : List Char) : List Char :=
  s.dropWhile isSpace

/-- Go `strings.TrimSpace`, right half: drop trailing whitespace. -/
def trimRight (s : List Char) : List Char :=
  (s.reverse.dropWhile isSpace).reverse

/-- Go `strings.TrimSpace`: drop leading and trailing whitespace. -/
def trimSpace (s : List Char) : List Char :=
  trimRight (trimLeft s)

/-- Go `strings.Split(s, "\n")`: split on every newline; always returns at
least one (possibly empty) piece. -/
def splitNl : List Char → List (List Char)
  | [] => [[]]
  | c :: rest =>
    match splitNl rest with
    | [] => [[]]
    | l :: ls => if c = '\n' then [] :: l :: ls else (c :: l) :: ls

/-- `toTrimmedLines` from diff-preview.go: split the raw bytes on newlines,
trim every line, and drop the lines that are empty after trimming. -/
def toTrimmedLines (d : List Char) : List (List Char) :=
  ((splitNl d).map trimSpace).filter (fun l => l ≠ [])

/-- Change kinds; the Go source uses `iota` constants
`Modified, Added, Deleted, NotCheckedIn`. -/
inductive ChangeType where
  | Modified
  | Added
  | Deleted
  | NotCheckedIn
deriving DecidableEq, Repr

/-- `GitChange` from diff-preview.go; the Go field `Type` is spelled `type`
here because `Type` is a Lean keyword. -/
structure GitChange where
  type : ChangeType
  path : List Char
  name : List Char
deriving DecidableEq, Repr

/-- Go `strings.SplitN(s, " ", 2)` in the shape the parser needs:
`some (before, rest)` splits at the first space, `none` when the string
contains no space (so `SplitN` returns a single part and the parser
aborts). -/
def splitFirstSpace : List Char → Option (List Char × List Char)
  | [] => none
  | c :: rest =>
    if c = ' ' then some ([], rest)
    else
      match splitFirstSpace rest with
      | none => none
      | some (a, b) => some (c :: a, b)

/-- `true` iff the character is a Windows path separator
(`os.IsPathSeparator` on Windows accepts both `\` and `/`). -/
def isPathSeparator (c : Char) : Bool :=
  c = '\\' || c = '/'

/-- The leading Windows volume-name length (`filepath.VolumeName`),
modelled for drive-letter paths (`C:...`); UNC volume names cannot occur in
repository-relative paths and are not modelled. -/
def volumeNameLen : List Char → Nat
  | a :: ':' :: _ =>
    if ('a' ≤ a && a ≤ 'z') || ('A' ≤ a && a ≤ 'Z') then 2 else 0
  | _ => 0

/-- Go `filepath.Base` (Windows build): last element of the path, after
stripping trailing separators and the volume name. -/
def base (path : List Char) : List Char :=
  if path = [] then ['.']
  else
    let p1 := (path.reverse.dropWhile isPathSeparator).reverse
    let p2 := p1.drop (volumeNameLen p1)
    let p3 := (p2.reverse.takeWhile (fun c => !isPathSeparator c)).reverse
    if p3 = [] then ['\\'] else p3

/-- `parseGitStatusLineMust`: split a status line at the first space into a
status code and a path token; map the code (`M`/`A`/`D`/`??`) to a change
type, trim the path, and take its base name as the display name. Any other
shape is fatal (`none`). -/
def parseGitStatusLineMust (s : List Char) : Option GitChange :=
  match splitFirstSpace s with
  | none => none
  | some (code, rest) =>
    let ty? : Option ChangeType :=
      if code = ['M'] then some .Modified
      else if code = ['A'] then some .Added
      else if code = ['D'] then some .Deleted
      else if code = ['?', '?'] then some .NotCheckedIn
      else none
    match ty? with
    | none => none
    | some ty =>
      let path := trimSpace rest
      some { type := ty, path := path, name := base path }

/-- The loop body of `parseGitStatusMust` over the already-trimmed lines:
parse each line (aborting the whole run on the first bad one) and drop
`NotCheckedIn` records unless `includeNotCheckedIn` is set. -/
def parseGitStatusLines (lines : List (List Char)) (includeNotCheckedIn : Bool) :
    Option (List GitChange) :=
  match lines with
  | [] => some []
  | l :: ls =>
    match parseGitStatusLineMust l with
    | none => none
    | some c =>
      match parseGitStatusLines ls includeNotCheckedIn with
      | none => none
      | some cs =>
        if includeNotCheckedIn = false ∧ c.type = ChangeType.NotCheckedIn
        then some cs
        else some (c :: cs)

/-- `parseGitStatusMust`: trim and filter the raw `git status --porcelain`
output into lines, then parse every line. -/
def parseGitStatusMust (out : List Char) (includeNotCheckedIn : Bool) :
    Option (List GitChange) :=
  parseGitStatusLines (toTrimmedLines out) includeNotCheckedIn

/-- `gitStatusMust`: run `git status --porcelain` and parse its output with
`includeNotCheckedIn = false`. The subprocess is a parameter: `statusOut`
is its stdout, `none` when the command failed (fatal). -/
def gitStatusMust (statusOut : Option (List Char)) : Option (List GitChange) :=
  match statusOut with
  | none => none
  | some out => parseGitStatusMust out false

/-- `strings.Replace(s, "/", "\\", -1)` from `copyFileMust`: normalize to
Windows-style separators. -/
def replaceSlash (s : List Char) : List Char :=
  s.map (fun c => if c = '/' then '\\' else c)

/-- A directory's contents: file name ↦ byte content. A later `os.Create`
of the same name truncates, so insertion shadows (prepend + first match). -/
abbrev FileMap := List (List Char × List Char)

/-- Write (create/truncate) a file in a directory map. -/
def fsSet (m : FileMap) (k v : List Char) : FileMap := (k, v) :: m

/-- Read a file from a directory map (`none` = no such file). -/
def fsGet (m : FileMap) (k : List Char) : Option (List Char) :=
  match m with
  | [] => none
  | (k2, v) :: rest => if k2 = k then some v else fsGet rest k

/-- The before/after snapshot directory pair built by `copyFiles`. -/
structure Snapshot where
  before : FileMap
  after : FileMap
deriving DecidableEq, Repr

/-- A content store: repository path ↦ file bytes. Used both for the working
tree (`os.Open`) and for git HEAD content (`git show HEAD:path`); `none`
means the read/query fails, which is fatal for the run. -/
def ContentStore := List Char → Option (List Char)

/-- `createEmptyFileMust`: create a zero-length file. -/
def createEmptyFileMust (m : FileMap) (k : List Char) : FileMap := fsSet m k []

/-- `copyFileMust dst src`: byte-for-byte copy from the working tree into a
snapshot directory; the source path has `/` replaced by `\` first
(`os.Open` fails — fatally — when the file does not exist). The destination
path gets the same replacement, which cannot change the file-name key. -/
def copyFileMust (wt : ContentStore) (m : FileMap) (dstName src : List Char) :
    Option FileMap :=
  match wt (replaceSlash src) with
  | none => none
  | some d => some (fsSet m dstName d)

/-- `catGitHeadToFileMust`: write the HEAD content of `src` (from
`git show HEAD:src`) to a snapshot file; fatal when the query fails. -/
def catGitHeadToFileMust (hd : ContentStore) (m : FileMap) (dstName src : List Char) :
    Option FileMap :=
  match hd src with
  | none => none
  | some d => some (fsSet m dstName d)

/-- `copyFileAddedMust`: empty file in before/, working-tree content in
after/. -/
def copyFileAddedMust (wt : ContentStore) (s : Snapshot) (c : GitChange) :
    Option Snapshot :=
  let b := createEmptyFileMust s.before c.name
  match copyFileMust wt s.after c.name c.path with
  | none => none
  | some a => some { before := b, after := a }

/-- `copyFileDeletedMust`: empty file in after/, HEAD content in before/.
NOTE: this helper exists in the source but is never called —
`copyFileChangeMust` routes `Deleted` to `copyFileModifiedMust`. -/
def copyFileDeletedMust (hd : ContentStore) (s : Snapshot) (c : GitChange) :
    Option Snapshot :=
  let a := createEmptyFileMust s.after c.name
  match catGitHeadToFileMust hd s.before c.name c.path with
  | none => none
  | some b => some { before := b, after := a }

/-- `copyFileModifiedMust`: working-tree content in after/, HEAD content in
before/. -/
def copyFileModifiedMust (wt hd : ContentStore) (s : Snapshot) (c : GitChange) :
    Option Snapshot :=
  match copyFileMust wt s.after c.name c.path with
  | none => none
  | some a =>
    match catGitHeadToFileMust hd s.before c.name c.path with
    | none => none
    | some b => some { before := b, after := a }

/-- `copyFileChangeMust`: dispatch on the change type. As in the source,
`Deleted` is routed to `copyFileModifiedMust` (not `copyFileDeletedMust`),
and any other type — only `NotCheckedIn` remains — is fatal. -/
def copyFileChangeMust (wt hd : ContentStore) (s : Snapshot) (c : GitChange) :
    Option Snapshot :=
  match c.type with
  | .Added => copyFileAddedMust wt s c
  | .Modified => copyFileModifiedMust wt hd s c
  | .Deleted => copyFileModifiedMust wt hd s c
  | .NotCheckedIn => none

/-- The loop of `copyFiles`: start from freshly created (empty) before/after
directories and process every change in order. -/
def copyFilesLoop (wt hd : ContentStore) (s : Snapshot) :
    List GitChange → Option Snapshot
  | [] => some s
  | c :: cs =>
    match copyFileChangeMust wt hd s c with
    | none => none
    | some s2 => copyFilesLoop wt hd s2 cs

/-- `copyFiles`: create the before/after directories and fill them. -/
def copyFiles (wt hd : ContentStore) (changes : List GitChange) : Option Snapshot :=
  copyFilesLoop wt hd { before := [], after := [] } changes

/-- The argument list passed to WinMerge by `runWinMerge`:
`/u` (don't touch the MRU list), `/wl` and `/wr` (left/right read-only),
then the before and after directories. The source's comment also describes
`/e` and `/r`, but neither is passed. -/
def winMergeArgs (dirBefore dirAfter : List Char) : List (List Char) :=
  ["/u".data, "/wl".data, "/wr".data, dirBefore, dirAfter]

/-- One entry of the scratch root as seen by `ioutil.ReadDir`: a name, the
directory flag, and the modification time (nanoseconds, like Go's
`time.Time`/`time.Duration` arithmetic). -/
structure DirEntry where
  name : List Char
  isDir : Bool
  modTime : Nat
deriving DecidableEq, Repr

/-- Go's `time.Hour * 24` in nanoseconds: the retention threshold of
`deleteOldDirs`. -/
def day : Nat := 24 * 3600 * 1000000000

/-- The deletion test of `deleteOldDirs`: only directories are considered,
and a directory is deleted iff its age `now - modTime` exceeds 24 hours.
Go's `time.Sub` is signed and a future modification time gives a negative
age (never deleted); truncated `Nat` subtraction gives age 0 there, which
is equally below the threshold. -/
def shouldDelete (now : Nat) (e : DirEntry) : Bool :=
  e.isDir && decide (day < now - e.modTime)

/-- `deleteOldDirs`: sweep the scratch root. Returns the state of the
scratch root after the sweep (first component) and the list of entries the
sweep removed (second component). Non-directories are never touched. -/
def deleteOldDirs (now : Nat) (entries : List DirEntry) :
    List DirEntry × List DirEntry :=
  (entries.filter (fun e => !shouldDelete now e),
   entries.filter (fun e => shouldDelete now e))

/-- Observable outcome of one run of `main`, from the point where the
scratch root exists and the working directory is the repository root (the
earlier steps — executable detection, scratch-root creation, the sweep,
`cdToGitRoot` — only touch the environment). `createdSnapshotDir` is the
`os.MkdirAll` of the timestamped subdirectory, not of the stable scratch
root. -/
structure RunTrace where
  exitCode : Nat
  createdSnapshotDir : Bool
  viewerInvoked : Bool
  records : List GitChange
deriving DecidableEq, Repr

/-- The tail of `main`: parse `git status --porcelain` output (any fatal
error exits with status 1), exit 0 immediately when there are no changes,
otherwise create the timestamped snapshot directory, build the snapshot
(fatal errors exit 1 after the directory was created), and run WinMerge. -/
def mainModel (wt hd : ContentStore) (statusOut : List Char) : RunTrace :=
  match parseGitStatusMust statusOut false with
  | none => { exitCode := 1, createdSnapshotDir := false, viewerInvoked := false, records := [] }
  | some changes =>
    if changes = [] then
      { exitCode := 0, createdSnapshotDir := false, viewerInvoked := false, records := [] }
    else
      match copyFiles wt hd changes with
      | none => { exitCode := 1, createdSnapshotDir := true, viewerInvoked := false, records := changes }
      | some _ => { exitCode := 0, createdSnapshotDir := true, viewerInvoked := true, records := changes }

/-! ### Helper lemmas about splitting and trimming -/

theorem splitNl_ne_nil (s : List Char) : splitNl s ≠ [] := by
  induction s with
  | nil => simp [splitNl]
  | cons c rest ih =>
    rw [splitNl]
    cases h : splitNl rest with
    | nil => simp
    | cons l ls => by_cases hc : c = '\n' <;> simp [hc]

theorem mem_splitNl_not_newline {s l : List Char} (h : l ∈ splitNl s) : '\n' ∉ l := by
  induction s generalizing l with
  | nil =>
    simp [splitNl] at h
    simp [h]
  | cons c rest ih =>
    cases h2 : splitNl rest with
    | nil => exact absurd h2 (splitNl_ne_nil rest)
    | cons p ps =>
      have hs : splitNl (c :: rest) =
          if c = '\n' then [] :: p :: ps else (c :: p) :: ps := by
        rw [splitNl, h2]
      rw [hs] at h
      by_cases hc : c = '\n'
      · rw [if_pos hc] at h
        rcases List.mem_cons.mp h with rfl | h3
        · simp
        · exact ih (h2 ▸ h3)
      · rw [if_neg hc] at h
        rcases List.mem_cons.mp h with rfl | h3
        · intro hmem
          rcases List.mem_cons.mp hmem with h4 | h4
          · exact hc h4.symm
          · exact ih (h2 ▸ List.mem_cons_self p ps) h4
        · exact ih (h2 ▸ List.mem_cons_of_mem p h3)

theorem splitNl_append_newline (l t : List Char) (h : '\n' ∉ l) :
    splitNl (l ++ '\n' :: t) = l :: splitNl t := by
  induction l with
  | nil =>
    cases h2 : splitNl t with
    | nil => exact absurd h2 (splitNl_ne_nil t)
    | cons p ps =>
      rw [List.nil_append, splitNl, h2]
      simp
  | cons c l ih =>
    have hc : c ≠ '\n' := fun hh => h (hh ▸ List.mem_cons_self c l)
    have h2 : '\n' ∉ l := fun hh => h (List.mem_cons_of_mem c hh)
    rw [List.cons_append, splitNl, ih h2]
    simp [hc]

theorem splitNl_eq_single (l : List Char) (h : '\n' ∉ l) : splitNl l = [l] := by
  induction l with
  | nil => rfl
  | cons c l ih =>
    have hc : c ≠ '\n' := fun hh => h (hh ▸ List.mem_cons_self c l)
    have h2 : '\n' ∉ l := fun hh => h (List.mem_cons_of_mem c hh)
    rw [splitNl, ih h2]
    simp [hc]

theorem dropWhile_dropWhile (p : Char → Bool) (l : List Char) :
    (l.dropWhile p).dropWhile p = l.dropWhile p := by
  induction l with
  | nil => rfl
  | cons c l ih =>
    by_cases h : p c
    · rw [List.dropWhile_cons_of_pos h]; exact ih
    · rw [List.dropWhile_cons_of_neg h, List.dropWhile_cons_of_neg h]

theorem trimLeft_trimLeft (s : List Char) : trimLeft (trimLeft s) = trimLeft s :=
  dropWhile_dropWhile isSpace s

theorem trimRight_trimRight (s : List Char) : trimRight (trimRight s) = trimRight s := by
  unfold trimRight
  rw [List.reverse_reverse, dropWhile_dropWhile]

theorem trimRight_append_eq (s : List Char) : ∃ t, s = trimRight s ++ t := by
  have hsuf : List.IsSuffix (List.dropWhile isSpace s.reverse) s.reverse :=
    List.dropWhile_suffix isSpace
  obtain ⟨t, ht⟩ := hsuf
  refine ⟨t.reverse, ?_⟩
  calc s = s.reverse.reverse := (List.reverse_reverse s).symm
    _ = (t ++ List.dropWhile isSpace s.reverse).reverse := by rw [ht]
    _ = (List.dropWhile isSpace s.reverse).reverse ++ t.reverse := by
        rw [List.reverse_append]
    _ = trimRight s ++ t.reverse := rfl

theorem trimLeft_trimRight (s : List Char) (h : trimLeft s = s) :
    trimLeft (trimRight s) = trimRight s := by
  obtain ⟨t, ht⟩ := trimRight_append_eq s
  cases hr : trimRight s with
  | nil => rfl
  | cons a y =>
    have ha : isSpace a = false := by
      by_contra hh
      have ha2 : isSpace a = true := by
        cases h3 : isSpace a
        · exact absurd h3 hh
        · rfl
      have hs : s = a :: (y ++ t) := by
        conv_lhs => rw [ht, hr]
        rfl
      simp only [trimLeft] at h
      rw [hs, List.dropWhile_cons_of_pos ha2] at h
      have hlen : (List.dropWhile isSpace (y ++ t)).length = (y ++ t).length + 1 := by
        rw [h, List.length_cons]
      have hle : (List.dropWhile isSpace (y ++ t)).length ≤ (y ++ t).length :=
        (List.dropWhile_sublist isSpace).length_le
      omega
    simp only [trimLeft]
    rw [List.dropWhile_cons_of_neg (by simp [ha])]

theorem trimSpace_trimSpace (s : List Char) : trimSpace (trimSpace s) = trimSpace s := by
  unfold trimSpace
  rw [trimLeft_trimRight (trimLeft s) (trimLeft_trimLeft s), trimRight_trimRight]

theorem trimSpace_sublist (s : List Char) : List.Sublist (trimSpace s) s := by
  have a1 : List.Sublist (trimLeft s) s := List.dropWhile_sublist _
  have a2 : List.Sublist (trimRight (trimLeft s)) (trimLeft s) := by
    unfold trimRight
    have h0 : List.Sublist (List.dropWhile isSpace (trimLeft s).reverse)
        (trimLeft s).reverse :=
      List.dropWhile_sublist isSpace
    simpa using h0.reverse
  exact a2.trans a1

theorem not_mem_trimSpace {s : List Char} (h : '\n' ∉ s) : '\n' ∉ trimSpace s :=
  fun hmem => h ((trimSpace_sublist s).subset hmem)

theorem mem_toTrimmedLines {d l : List Char} (h : l ∈ toTrimmedLines d) :
    '\n' ∉ l ∧ trimSpace l = l ∧ l ≠ [] := by
  unfold toTrimmedLines at h
  rw [List.mem_filter] at h
  obtain ⟨hm, hne⟩ := h
  rw [List.mem_map] at hm
  obtain ⟨l0, hl0, rfl⟩ := hm
  exact ⟨not_mem_trimSpace (mem_splitNl_not_newline hl0), trimSpace_trimSpace l0,
    by simpa using hne⟩

/-- Re-joins lines with newlines; the inverse direction of `splitNl`. -/
def joinNl : List (List Char) → List Char
  | [] => []
  | [l] => l
  | l :: l2 :: ls => l ++ '\n' :: joinNl (l2 :: ls)

theorem toTrimmedLines_joinNl (ls : List (List Char))
    (h : ∀ l ∈ ls, '\n' ∉ l ∧ trimSpace l = l ∧ l ≠ []) :
    toTrimmedLines (joinNl ls) = ls := by
  induction ls with
  | nil => rfl
  | cons l ls ih =>
    obtain ⟨h1, h2, h3⟩ := h l (List.mem_cons_self l ls)
    cases ls with
    | nil =>
      show toTrimmedLines l = [l]
      unfold toTrimmedLines
      rw [splitNl_eq_single l h1, List.map_cons, List.map_nil, h2,
        List.filter_cons_of_pos (by simpa using h3)]
      rfl
    | cons l2 ls2 =>
      have hrest : ∀ x ∈ l2 :: ls2, '\n' ∉ x ∧ trimSpace x = x ∧ x ≠ [] :=
        fun x hx => h x (List.mem_cons_of_mem l hx)
      show toTrimmedLines (l ++ '\n' :: joinNl (l2 :: ls2)) = l :: l2 :: ls2
      unfold toTrimmedLines
      rw [splitNl_append_newline _ _ h1, List.map_cons, h2,
        List.filter_cons_of_pos (by simpa using h3)]
      exact congrArg (List.cons l) (ih hrest)

theorem trimSpace_cons_space (c : Char) (p : List Char) (h : isSpace c = true) :
    trimSpace (c :: p) = trimSpace p := by
  unfold trimSpace trimLeft
  rw [List.dropWhile_cons_of_pos h]

theorem toTrimmedLines_cons_space (c : Char) (s : List Char) (h : isSpace c = true) :
    toTrimmedLines (c :: s) = toTrimmedLines s := by
  cases h2 : splitNl s with
  | nil => exact absurd h2 (splitNl_ne_nil s)
  | cons p ps =>
    by_cases hc : c = '\n'
    · have hs : splitNl (c :: s) = [] :: p :: ps := by
        rw [splitNl, h2]
        show (if c = '\n' then [] :: p :: ps else (c :: p) :: ps) = [] :: p :: ps
        rw [if_pos hc]
      unfold toTrimmedLines
      rw [hs, h2, List.map_cons,
        List.filter_cons_of_neg (by simp [trimSpace, trimLeft, trimRight])]
    · have hs : splitNl (c :: s) = (c :: p) :: ps := by
        rw [splitNl, h2]
        show (if c = '\n' then [] :: p :: ps else (c :: p) :: ps) = (c :: p) :: ps
        rw [if_neg hc]
      unfold toTrimmedLines
      rw [hs, h2, List.map_cons, List.map_cons, trimSpace_cons_space c p h]

theorem toTrimmedLines_space_append (l rest : List Char)
    (h : ∀ c ∈ l, isSpace c = true) :
    toTrimmedLines (l ++ '\n' :: rest) = toTrimmedLines rest := by
  induction l with
  | nil =>
    rw [List.nil_append]
    exact toTrimmedLines_cons_space '\n' rest (by decide)
  | cons c l ih =>
    rw [List.cons_append, toTrimmedLines_cons_space c _ (h c (List.mem_cons_self c l))]
    exact ih (fun x hx => h x (List.mem_cons_of_mem c hx))

/-! ### Malformed status lines -/

/-- A status line is malformed when it does not split into a code token and
a path token at the first space, or when its code token is not one of
`M`, `A`, `D`, `??`. (Blank lines are not in this class: `toTrimmedLines`
drops them before line parsing.) -/
def malformedLine (l : List Char) : Bool :=
  match splitFirstSpace l with
  | none => true
  | some (code, _) =>
    !(code = ['M'] || code = ['A'] || code = ['D'] || code = ['?', '?'])

theorem malformedLine_parse_none (l : List Char) (h : malformedLine l = true) :
    parseGitStatusLineMust l = none := by
  unfold malformedLine at h
  unfold parseGitStatusLineMust
  cases hs : splitFirstSpace l with
  | none => rfl
  | some pr =>
    obtain ⟨code, rest⟩ := pr
    rw [hs] at h
    simp only [Bool.not_eq_eq_eq_not, Bool.not_true, Bool.or_eq_false_iff,
      decide_eq_false_iff_not] at h
    obtain ⟨⟨⟨h1, h2⟩, h3⟩, h4⟩ := h
    simp [h1, h2, h3, h4]

theorem parseGitStatusLines_none (lines : List (List Char)) (inc : Bool)
    (h : ∃ l ∈ lines, parseGitStatusLineMust l = none) :
    parseGitStatusLines lines inc = none := by
  induction lines with
  | nil => simp at h
  | cons a ls ih =>
    obtain ⟨l, hl, hp⟩ := h
    rcases List.mem_cons.mp hl with rfl | hl2
    · unfold parseGitStatusLines
      rw [hp]
    · unfold parseGitStatusLines
      cases hpa : parseGitStatusLineMust a with
      | none => rfl
      | some c =>
        rw [ih ⟨l, hl2, hp⟩]

/-! ### The spec-side whitespace normalization (for claim C10) -/

/-- Modelled from the claim's words: the raw status input with blank
(whitespace-only) lines removed and each remaining line trimmed, re-joined
with newlines. This is the spec-side transformation `parseGitStatusMust` is
compared against. -/
def specNormalize (d : List Char) : List Char :=
  joinNl (((splitNl d).filter (fun l => trimSpace l ≠ [])).map trimSpace)

theorem specNormalize_eq (d : List Char) :
    specNormalize d = joinNl (toTrimmedLines d) := by
  unfold specNormalize toTrimmedLines
  congr 1
  induction splitNl d with
  | nil => rfl
  | cons x xs ih =>
    by_cases h : trimSpace x = []
    · rw [List.filter_cons_of_neg (by simp [h]), List.map_cons,
        List.filter_cons_of_neg (by simp [h]), ih]
    · rw [List.filter_cons_of_pos (by simp [h]), List.map_cons, List.map_cons,
        List.filter_cons_of_pos (by simp [h]), ih]

/-! ### Retention sweep lemmas -/

theorem shouldDelete_eq_false (now : Nat) (e : DirEntry)
    (h : e.isDir = false ∨ now - e.modTime ≤ day) :
    shouldDelete now e = false := by
  unfold shouldDelete
  rcases h with h | h
  · rw [h]
    rfl
  · have h2 : ¬ day < now - e.modTime := not_lt.mpr h
    simp [h2]

theorem sweep_keeps (now : Nat) :
    ∀ (n : Nat) (entries : List DirEntry) (e : DirEntry), e ∈ entries →
      (e.isDir = false ∨ now - e.modTime ≤ day) →
      e ∈ (fun s => (deleteOldDirs now s).1)^[n] entries := by
  intro n
  induction n with
  | zero =>
    intro entries e he _
    simpa using he
  | succ n ih =>
    intro entries e he hy
    rw [Function.iterate_succ_apply]
    refine ih _ e ?_ hy
    show e ∈ (deleteOldDirs now entries).1
    unfold deleteOldDirs
    exact List.mem_filter.mpr ⟨he, by simp [shouldDelete_eq_false now e hy]⟩

/-! ### Concrete stores used by closed theorems -/

/-- Working tree for the three-record scenario; keys carry the `\`
separator that `copyFileMust` substitutes before opening. -/
def wtScenario : ContentStore := fun p =>
  if p = ("src\\a.go".data) then some ("a2".data)
  else if p = ("src\\b.go".data) then some ("b2".data)
  else if p = ("src\\c.go".data) then some ("c2".data)
  else none

/-- HEAD contents for the three-record scenario; `git show HEAD:path` is
queried with the original `/`-separated path. -/
def hdScenario : ContentStore := fun p =>
  if p = ("src/a.go".data) then some ("a1".data)
  else if p = ("src/c.go".data) then some ("c1".data)
  else none

/-- Working tree for the Added-record witness: the file is present under
both separator spellings, as on a real Windows file system. -/
def wtAddedWitness : ContentStore := fun p =>
  if p = ("src\\n.go".data) ∨ p = ("src/n.go".data) then some ("body".data) else none

/-! ### Claim theorems -/

/-- C1: the claim says a Deleted record yields a zero-length `after/<name>`
and HEAD content in `before/<name>` — that is what the (never-called)
`copyFileDeletedMust` produces. The dispatcher `copyFileChangeMust` instead
routes Deleted to `copyFileModifiedMust`, which tries to copy the deleted
file from the working tree and aborts, so no snapshot is built at all. -/
theorem deleted_change_routed_to_modified_copy :
    copyFileChangeMust (fun _ => none)
      (fun p => if p = ("src/c.go".data) then some ("old".data) else none)
      { before := [], after := [] }
      { type := ChangeType.Deleted, path := "src/c.go".data, name := "c.go".data } =
      none ∧
    copyFileDeletedMust
      (fun p => if p = ("src/c.go".data) then some ("old".data) else none)
      { before := [], after := [] }
      { type := ChangeType.Deleted, path := "src/c.go".data, name := "c.go".data } =
      some { before := [("c.go".data, "old".data)], after := [("c.go".data, [])] } := by
  decide

/-- C2 (counterexample): an Untracked (`NotCheckedIn`) record makes the
snapshot builder abort (`none`), while handling it as an Added record would
succeed with an empty `before/` placeholder and the on-disk content in
`after/` — so the builder does not treat Untracked like Added. -/
theorem untracked_not_treated_as_added_cex :
    copyFileChangeMust
      (fun p => if p = ("src\\junk.go".data) then some ("new".data) else none)
      (fun _ => none)
      { before := [], after := [] }
      { type := ChangeType.NotCheckedIn, path := "src/junk.go".data,
        name := "junk.go".data } = none ∧
    copyFileAddedMust
      (fun p => if p = ("src\\junk.go".data) then some ("new".data) else none)
      { before := [], after := [] }
      { type := ChangeType.NotCheckedIn, path := "src/junk.go".data,
        name := "junk.go".data } =
      some { before := [("junk.go".data, [])],
             after := [("junk.go".data, "new".data)] } := by
  decide

/-- C2 (amended): every change record of kind `NotCheckedIn` that reaches
the snapshot builder hits the dispatcher's fatal default case: the run
aborts instead of treating the record like an Added one. -/
theorem untracked_change_aborts (wt hd : ContentStore) (s : Snapshot)
    (c : GitChange) (h : c.type = ChangeType.NotCheckedIn) :
    copyFileChangeMust wt hd s c = none := by
  unfold copyFileChangeMust
  rw [h]

theorem untracked_change_aborts_witness :
    ({ type := ChangeType.NotCheckedIn, path := "x".data, name := "x".data }
        : GitChange).type = ChangeType.NotCheckedIn ∧
    copyFileChangeMust (fun _ => none) (fun _ => none) { before := [], after := [] }
      { type := ChangeType.NotCheckedIn, path := "x".data, name := "x".data } = none :=
  ⟨rfl, untracked_change_aborts _ _ _ _ rfl⟩

/-- C3 (counterexample): the WinMerge argument list contains `/u` (no MRU),
`/wl` and `/wr` (both sides read-only) and the two directories, but no `/r`
(recursive compare) flag — the claim's "recursive directory comparison"
flag is not passed. -/
theorem winmerge_recursive_flag_missing_cex :
    winMergeArgs ("before".data) ("after".data) =
      ["/u".data, "/wl".data, "/wr".data, "before".data, "after".data] ∧
    ("/r".data) ∉ winMergeArgs ("before".data) ("after".data) := by
  decide

/-- C3 (amended): the viewer is invoked with exactly the flags `/u` (no
history-list pollution) and `/wl`, `/wr` (both sides read-only), followed by
exactly two positional directory arguments — before then after; no
recursive-compare flag (`/r`) is passed. -/
theorem winmerge_invocation_shape (dirBefore dirAfter : List Char)
    (h1 : dirBefore ≠ "/r".data) (h2 : dirAfter ≠ "/r".data) :
    winMergeArgs dirBefore dirAfter =
      ["/u".data, "/wl".data, "/wr".data, dirBefore, dirAfter] ∧
    ("/r".data) ∉ winMergeArgs dirBefore dirAfter := by
  refine ⟨rfl, ?_⟩
  intro hmem
  simp only [winMergeArgs, List.mem_cons, List.not_mem_nil, or_false] at hmem
  rcases hmem with h | h | h | h | h
  · exact absurd h (by decide)
  · exact absurd h (by decide)
  · exact absurd h (by decide)
  · exact h1 h.symm
  · exact h2 h.symm

theorem winmerge_invocation_shape_witness :
    ("x1".data ≠ "/r".data) ∧ ("x2".data ≠ "/r".data) ∧
    (winMergeArgs ("x1".data) ("x2".data) =
        ["/u".data, "/wl".data, "/wr".data, "x1".data, "x2".data] ∧
      ("/r".data) ∉ winMergeArgs ("x1".data) ("x2".data)) :=
  ⟨by decide, by decide, winmerge_invocation_shape _ _ (by decide) (by decide)⟩

/-- C4: a well-formed status line `<code> <path>` with code in
{M, A, D, ??} parses to exactly one record whose kind is the one mapped
from the code, whose path is the trimmed path token and whose display name
is the base (final component) of that trimmed path. -/
theorem parse_wellformed_status_line (code rest : List Char) (k : ChangeType)
    (h : (code, k) ∈ [(['M'], ChangeType.Modified), (['A'], ChangeType.Added),
      (['D'], ChangeType.Deleted), (['?', '?'], ChangeType.NotCheckedIn)]) :
    parseGitStatusLineMust (code ++ ' ' :: rest) =
      some { type := k, path := trimSpace rest, name := base (trimSpace rest) } := by
  simp only [List.mem_cons, List.not_mem_nil, or_false, Prod.mk.injEq] at h
  rcases h with ⟨rfl, rfl⟩ | ⟨rfl, rfl⟩ | ⟨rfl, rfl⟩ | ⟨rfl, rfl⟩
  · rfl
  · rfl
  · rfl
  · rfl

theorem parse_wellformed_status_line_witness :
    ((['M'], ChangeType.Modified) ∈ [(['M'], ChangeType.Modified),
      (['A'], ChangeType.Added), (['D'], ChangeType.Deleted),
      (['?', '?'], ChangeType.NotCheckedIn)]) ∧
    parseGitStatusLineMust (['M'] ++ ' ' :: ("src/x.go".data)) =
      some { type := ChangeType.Modified, path := trimSpace ("src/x.go".data),
             name := base (trimSpace ("src/x.go".data)) } :=
  ⟨by decide, parse_wellformed_status_line ['M'] ("src/x.go".data)
    ChangeType.Modified (by decide)⟩

/-- C5 (counterexample): the input `" \nM a.go"` contains a line that is
empty after trimming, yet parsing does not abort — it yields one record.
Whitespace-only lines are dropped before line parsing, so "empty after
trim" is not a fatal-parse category as the claim states. -/
theorem blank_line_does_not_abort_cex :
    trimSpace (" ".data) = [] ∧
    splitNl ((" \nM a.go").data) = [" ".data, "M a.go".data] ∧
    parseGitStatusMust ((" \nM a.go").data) false =
      some [{ type := ChangeType.Modified, path := "a.go".data,
              name := "a.go".data }] := by
  decide

/-- C5 (amended): any status input one of whose trimmed non-blank lines is
malformed — it has no space to split on, or an unrecognized code token —
makes parsing abort (`none`): zero change records come out of that batch.
(Blank/whitespace-only lines are silently dropped, never fatal.) -/
theorem malformed_line_aborts_run (out : List Char) (inc : Bool)
    (h : ∃ l ∈ toTrimmedLines out, malformedLine l = true) :
    parseGitStatusMust out inc = none := by
  obtain ⟨l, hl, hm⟩ := h
  exact parseGitStatusLines_none _ _ ⟨l, hl, malformedLine_parse_none l hm⟩

theorem malformed_line_aborts_run_witness :
    (∃ l ∈ toTrimmedLines (("Z boo\nM a.go").data), malformedLine l = true) ∧
    parseGitStatusMust (("Z boo\nM a.go").data) false = none :=
  ⟨by decide, malformed_line_aborts_run _ _ (by decide)⟩

/-- C6: for an Added record whose working-tree file exists (separator
normalization does not change which file is read, as on Windows), the
snapshot builder succeeds, `before/<name>` is a zero-length file and
`after/<name>` byte-equals the working-tree content at the record's path. -/
theorem added_change_snapshot (wt hd : ContentStore) (s : Snapshot)
    (c : GitChange) (content : List Char) (hk : c.type = ChangeType.Added)
    (hsep : wt (replaceSlash c.path) = wt c.path)
    (hwt : wt c.path = some content) :
    ∃ s2, copyFileChangeMust wt hd s c = some s2 ∧
      fsGet s2.before c.name = some [] ∧
      fsGet s2.after c.name = some content := by
  have hdis : copyFileChangeMust wt hd s c = copyFileAddedMust wt s c := by
    unfold copyFileChangeMust
    rw [hk]
  rw [hdis]
  unfold copyFileAddedMust copyFileMust createEmptyFileMust
  rw [hsep, hwt]
  refine ⟨_, rfl, ?_, ?_⟩
  · simp [fsGet, fsSet]
  · simp [fsGet, fsSet]

theorem added_change_snapshot_witness :
    (({ type := ChangeType.Added, path := "src/n.go".data, name := "n.go".data }
        : GitChange).type = ChangeType.Added ∧
      wtAddedWitness (replaceSlash ("src/n.go".data)) =
        wtAddedWitness ("src/n.go".data) ∧
      wtAddedWitness ("src/n.go".data) = some ("body".data)) ∧
    ∃ s2, copyFileChangeMust wtAddedWitness (fun _ => none)
        { before := [], after := [] }
        { type := ChangeType.Added, path := "src/n.go".data, name := "n.go".data } =
        some s2 ∧
      fsGet s2.before ("n.go".data) = some [] ∧
      fsGet s2.after ("n.go".data) = some ("body".data) :=
  ⟨⟨rfl, by decide, by decide⟩,
    added_change_snapshot _ _ _ _ _ rfl (by decide) (by decide)⟩

/-- C7: the four-line scenario input parses (with
`includeNotCheckedIn = false`) to exactly the three records Modified a.go,
Added b.go, Deleted c.go in order; the `??` line contributes no record, and
the snapshot built from those records contains no `junk.go` entry. -/
theorem parse_three_record_scenario :
    parseGitStatusMust
        (("M src/a.go\nA src/b.go\nD src/c.go\n??  src/junk.go\n").data) false =
      some [{ type := ChangeType.Modified, path := "src/a.go".data, name := "a.go".data },
            { type := ChangeType.Added, path := "src/b.go".data, name := "b.go".data },
            { type := ChangeType.Deleted, path := "src/c.go".data, name := "c.go".data }] ∧
    copyFiles wtScenario hdScenario
        [{ type := ChangeType.Modified, path := "src/a.go".data, name := "a.go".data },
         { type := ChangeType.Added, path := "src/b.go".data, name := "b.go".data },
         { type := ChangeType.Deleted, path := "src/c.go".data, name := "c.go".data }] =
      some { before := [("c.go".data, "c1".data), ("b.go".data, ([] : List Char)),
                        ("a.go".data, "a1".data)],
             after := [("c.go".data, "c2".data), ("b.go".data, "b2".data),
                       ("a.go".data, "a2".data)] } ∧
    fsGet [("c.go".data, "c1".data), ("b.go".data, ([] : List Char)),
           ("a.go".data, "a1".data)] ("junk.go".data) = none ∧
    fsGet [("c.go".data, "c2".data), ("b.go".data, "b2".data),
           ("a.go".data, "a2".data)] ("junk.go".data) = none := by
  decide

/-- C8: on empty status output, parsing yields zero records and the run
exits with status 0 reporting no changes: the timestamped snapshot
subdirectory is never created and the viewer is never invoked, whatever the
file-system contents are. -/
theorem empty_status_no_snapshot (wt hd : ContentStore) :
    mainModel wt hd ("".data) =
      { exitCode := 0, createdSnapshotDir := false, viewerInvoked := false,
        records := [] } := rfl

/-- C9: the retention sweep is idempotent and age-safe: an entry that is
not a directory, or whose age is within the 24-hour threshold, survives any
number of sweeps; only directories are ever deleted; and a second sweep run
immediately after a first keeps the state unchanged and deletes nothing. -/
theorem retention_sweep_idempotent_age_safe (now : Nat) (entries : List DirEntry) :
    (∀ n : Nat, ∀ e ∈ entries, e.isDir = false ∨ now - e.modTime ≤ day →
        e ∈ (fun s => (deleteOldDirs now s).1)^[n] entries) ∧
    (∀ e ∈ (deleteOldDirs now entries).2, e.isDir = true) ∧
    (deleteOldDirs now (deleteOldDirs now entries).1).1 =
      (deleteOldDirs now entries).1 ∧
    (deleteOldDirs now (deleteOldDirs now entries).1).2 = [] := by
  refine ⟨fun n e he hy => sweep_keeps now n entries e he hy, ?_, ?_, ?_⟩
  · intro e he
    unfold deleteOldDirs at he
    rw [List.mem_filter] at he
    have h2 := he.2
    unfold shouldDelete at h2
    exact ((Bool.and_eq_true _ _).mp h2).1
  · show List.filter (fun e => !shouldDelete now e)
        (List.filter (fun e => !shouldDelete now e) entries) =
      List.filter (fun e => !shouldDelete now e) entries
    rw [List.filter_filter]
    congr 1
    funext a
    exact Bool.and_self _
  · show List.filter (fun e => shouldDelete now e)
        (List.filter (fun e => !shouldDelete now e) entries) = []
    rw [List.filter_filter]
    refine List.filter_eq_nil_iff.mpr ?_
    intro a _
    simp

theorem retention_sweep_idempotent_age_safe_witness :
    ({ name := "snap".data, isDir := true, modTime := 100 } : DirEntry) ∈
      (fun s => (deleteOldDirs 150 s).1)^[3]
        [{ name := "snap".data, isDir := true, modTime := 100 }] ∧
    (deleteOldDirs 150 (deleteOldDirs 150
        [({ name := "snap".data, isDir := true, modTime := 100 } : DirEntry)]).1).2 = [] :=
  ⟨(retention_sweep_idempotent_age_safe 150
      [{ name := "snap".data, isDir := true, modTime := 100 }]).1 3
      { name := "snap".data, isDir := true, modTime := 100 } (by decide)
      (Or.inr (by decide)),
    (retention_sweep_idempotent_age_safe 150
      [{ name := "snap".data, isDir := true, modTime := 100 }]).2.2.2⟩

/-- C10: parsing is whitespace-normalizing: the parse of any status input
equals the parse of the same input with blank lines removed and each
remaining line trimmed (`specNormalize`), and a whitespace-only line never
aborts the run and never produces a record. -/
theorem parse_whitespace_normalizing (d : List Char) (inc : Bool) :
    parseGitStatusMust (specNormalize d) inc = parseGitStatusMust d inc ∧
    (∀ l rest, (∀ c ∈ l, isSpace c = true) →
      parseGitStatusMust (l ++ '\n' :: rest) inc =
        parseGitStatusMust rest inc) := by
  constructor
  · unfold parseGitStatusMust
    rw [specNormalize_eq, toTrimmedLines_joinNl _ (fun l hl => mem_toTrimmedLines hl)]
  · intro l rest hws
    unfold parseGitStatusMust
    rw [toTrimmedLines_space_append l rest hws]

theorem parse_whitespace_normalizing_witness :
    (∀ c ∈ ("  ".data), isSpace c = true) ∧
    parseGitStatusMust (("  ".data) ++ '\n' :: ("M a.go".data)) false =
      parseGitStatusMust ("M a.go".data) false :=
  ⟨by decide, (parse_whitespace_normalizing ("M a.go".data) false).2
    ("  ".data) ("M a.go".data) (by decide)⟩

end DiffPreview
